import Mathlib

/-!
Shallow embedding of `src/TestPerformance.py`, a benchmark for applying
permutation moves to a 54-facelet cube state.

Conventions of the embedding:
* A cube state is a `List String` (the code keeps a NumPy array of opaque
  string symbols); a permutation vector is a `List Int` (the code keeps a
  NumPy `int` array, whose entries may be any integers after the build step).
* Python exceptions are modelled with `Except PyErr`; `PyErr.valueError`
  stands for Python's `ValueError` (raised by `int(...)` on a bad string and
  by the explicit `raise` statements) and `PyErr.indexError` for NumPy's
  `IndexError` on out-of-range indexing.
* A string that the code feeds to Python's `int(...)` is abstracted by its
  parse result: `PyStr.num n` is a string parsing to the integer `n`, and
  `PyStr.notNum` a string on which `int(...)` raises `ValueError`.
* NumPy indexing semantics (an index `i` with `-len ≤ i < 0` wraps to
  `len + i`; anything outside `[-len, len)` raises `IndexError`) is modelled
  by `npGet` / `npSet` / `npFancyIndex`.  The permutation vector is
  `np.arange(54)`, a fixed-width int64 array: scalar assignment of a Python
  int outside `[-2^63, 2^63)` raises `OverflowError`, which `npSet` models
  (checking the index before converting the value).
* The code's functions are pure in the embedding; the NumPy expression
  `cube[perm]` allocates a fresh array, so `apply_move` never mutates its
  input, which the functional embedding reflects intrinsically.
-/

/-- Python exception kinds raised by the translated code: `valueError` from
`int(...)` on a bad string and from the explicit `raise` statements,
`indexError` from NumPy indexing outside `[-len, len)`, and `overflowError`
from storing a Python int that does not fit the int64 dtype of the
permutation array. -/
inductive PyErr where
  | valueError
  | indexError
  | overflowError
deriving DecidableEq

/-- A Python string abstracted by the result of `int(...)` on it:
`num n` parses to the integer `n`, `notNum` raises `ValueError`. -/
inductive PyStr where
  | num (n : Int)
  | notNum
deriving DecidableEq

/-- Python `int(s)` on the abstracted string: `some n` on success,
`none` when `ValueError` would be raised. -/
def pyInt : PyStr → Option Int
  | .num n => some n
  | .notNum => none

/-- Whether an `Except` value is a success (`ok`). -/
def exOk : Except PyErr α → Bool
  | .ok _ => true
  | .error _ => false

/-- NumPy scalar read `xs[i]`: indices in `[0, len)` read directly, indices
in `[-len, 0)` wrap to `len + i`, anything else raises `IndexError`
(modelled as `none`). -/
def npGet (xs : List α) (i : Int) : Option α :=
  if 0 ≤ i ∧ i < (xs.length : Int) then xs.get? i.toNat
  else if -(xs.length : Int) ≤ i ∧ i < 0 then xs.get? (i + xs.length).toNat
  else none

/-- NumPy scalar write `xs[i] = v` on an int64 array, with the same index
rules as `npGet`: an index outside `[-len, len)` raises `IndexError`, and a
value outside the int64 range `[-2^63, 2^63)` raises `OverflowError` when
converted for storage (the index is resolved first). -/
def npSet (xs : List Int) (i : Int) (v : Int) : Except PyErr (List Int) :=
  if 0 ≤ i ∧ i < (xs.length : Int) then
    if -(2 ^ 63) ≤ v ∧ v < 2 ^ 63 then .ok (xs.set i.toNat v)
    else .error .overflowError
  else if -(xs.length : Int) ≤ i ∧ i < 0 then
    if -(2 ^ 63) ≤ v ∧ v < 2 ^ 63 then .ok (xs.set (i + xs.length).toNat v)
    else .error .overflowError
  else .error .indexError

/-- NumPy fancy indexing `xs[idx]`: gathers `xs[idx[0]], xs[idx[1]], ...`
into a fresh array; raises `IndexError` (`none`) as soon as an entry of
`idx` is out of range. -/
def npFancyIndex (xs : List α) (idx : List Int) : Option (List α) :=
  match idx with
  | [] => some []
  | i :: rest =>
    match npGet xs i, npFancyIndex xs rest with
    | some v, some r => some (v :: r)
    | _, _ => none

/-- Python `range(a, b)` as a list of integers. -/
def pyRange (a b : Int) : List Int :=
  (List.range (b - a).toNat).map (fun k => a + Int.ofNat k)

/-- `np.arange(54)`: the identity permutation vector the build step starts
from. -/
def arange54 : List Int := (List.range 54).map Int.ofNat

/-- Python dict assignment `d[k] = v` on an insertion-ordered association
list: an existing key keeps its position and gets the new value, a new key
is appended. -/
def dictSet (d : List (String × α)) (k : String) (v : α) : List (String × α) :=
  match d with
  | [] => [(k, v)]
  | (k', v') :: rest => if k' = k then (k, v) :: rest else (k', v') :: dictSet rest k v

/-- `load_cube`, after the CSV file has been read into its rows: requires at
least two rows, takes the second row as the cube, and requires it to have
exactly 54 entries.  (The file access itself is peripheral I/O; the embedding
starts from the parsed `rows` list, exactly the value the code checks.) -/
def load_cube (rows : List (List String)) : Except PyErr (List String) :=
  match rows with
  | _ :: cube_list :: _ =>
    if cube_list.length ≠ 54 then .error .valueError else .ok cube_list
  | _ => .error .valueError

/-- One step of the inner loop of `precompute_permutations`: for a JSON pair
with key `src` and value `tgt`, run `tgt_index = int(tgt) - 1`,
`src_index = int(src) - 1`, `perm[tgt_index] = src_index` (in the code's
evaluation order: the value string is converted first). -/
def applyMappingPair (perm : List Int) (e : PyStr × PyStr) : Except PyErr (List Int) :=
  match pyInt e.2 with
  | none => .error .valueError
  | some t =>
    match pyInt e.1 with
    | none => .error .valueError
    | some s =>
      match npSet perm (t - 1) (s - 1) with
      | .error err => .error err
      | .ok p => .ok p

/-- The body of the per-move loop of `precompute_permutations`: start from
`np.arange(54)` and fold `applyMappingPair` over the move's (key, value)
pairs in iteration order. -/
def buildMovePermFrom (perm : List Int) (m : List (PyStr × PyStr)) : Except PyErr (List Int) :=
  match m with
  | [] => .ok perm
  | e :: rest =>
    match applyMappingPair perm e with
    | .error err => .error err
    | .ok p => buildMovePermFrom p rest

/-- The permutation vector `precompute_permutations` computes for a single
move's sub-mapping. -/
def buildMovePerm (m : List (PyStr × PyStr)) : Except PyErr (List Int) :=
  buildMovePermFrom arange54 m

/-- `precompute_permutations` over the whole move description (an
insertion-ordered mapping from move name to sub-mapping), accumulating the
catalog dict. -/
def precomputeFrom (acc : List (String × List Int))
    (mappings : List (String × List (PyStr × PyStr))) :
    Except PyErr (List (String × List Int)) :=
  match mappings with
  | [] => .ok acc
  | (mv, m) :: rest =>
    match buildMovePerm m with
    | .error err => .error err
    | .ok perm => precomputeFrom (dictSet acc mv perm) rest

/-- `precompute_permutations`: builds the Move Catalog from the move
description. -/
def precompute_permutations (mappings : List (String × List (PyStr × PyStr))) :
    Except PyErr (List (String × List Int)) :=
  precomputeFrom [] mappings

/-- `apply_move`: `perms.get(move)` is `lookup`; a missing move returns the
cube unchanged, otherwise the NumPy gather `cube[perm]` is performed. -/
def apply_move (cube : List String) (move : String)
    (perms : List (String × List Int)) : Except PyErr (List String) :=
  match perms.lookup move with
  | none => .ok cube
  | some perm =>
    match npFancyIndex cube perm with
    | none => .error .indexError
    | some r => .ok r

/-- `apply_moves`: the sequential loop `for move in moves: cube =
apply_move(cube, move, perms)`. -/
def apply_moves (cube : List String) (moves : List String)
    (perms : List (String × List Int)) : Except PyErr (List String) :=
  match moves with
  | [] => .ok cube
  | m :: rest =>
    match apply_move cube m perms with
    | .error err => .error err
    | .ok c => apply_moves c rest perms

/-- The loop nest of `main`: `for run in range(1, R+1): for it in range(I):
cube = apply_moves(cube, [choice() for k in range(M)], perms)`.  The random
`choice` calls are modelled by an oracle `rand` giving the move name drawn
at run `run`, iteration `it`, position `k`.  Timing and printing are
peripheral I/O and are dropped; the result is the final cube state. -/
def mainLoops (perms : List (String × List Int))
    (rand : Int → Int → Int → String) (M I R : Int) (cube : List String) :
    Except PyErr (List String) :=
  (pyRange 1 (R + 1)).foldlM
    (fun c run =>
      (pyRange 0 I).foldlM
        (fun c it =>
          apply_moves c ((pyRange 0 M).map (fun k => rand run it k)) perms)
        c)
    cube

/-- The benchmark portion of `main`: parse the three interactive inputs with
`int(...)` (a bad string raises `ValueError`), then run the loop nest
`mainLoops`. -/
def mainBench (mIn iIn rIn : PyStr) (cube : List String)
    (perms : List (String × List Int)) (rand : Int → Int → Int → String) :
    Except PyErr (List String) :=
  match pyInt mIn with
  | none => .error .valueError
  | some M =>
    match pyInt iIn with
    | none => .error .valueError
    | some I =>
      match pyInt rIn with
      | none => .error .valueError
      | some R => mainLoops perms rand M I R cube

/-! ### Basic lemmas about the NumPy index model -/

theorem npGet_of_nonneg {xs : List α} {i : Int} (h0 : 0 ≤ i)
    (hlt : i < (xs.length : Int)) : npGet xs i = xs.get? i.toNat := by
  unfold npGet
  rw [if_pos ⟨h0, hlt⟩]

theorem npGet_isSome_of_range {xs : List α} {i : Int} (h0 : 0 ≤ i)
    (hlt : i < (xs.length : Int)) : (npGet xs i).isSome := by
  have : i.toNat < xs.length := by omega
  rw [npGet_of_nonneg h0 hlt, List.get?_eq_get this]
  rfl

theorem npFancyIndex_eq_some {xs : List α} {idx : List Int}
    (h : ∀ x ∈ idx, (npGet xs x).isSome) :
    ∃ r, npFancyIndex xs idx = some r ∧ r.length = idx.length ∧
      ∀ i : Nat, r.get? i = (idx.get? i).bind (npGet xs) := by
  induction idx with
  | nil => exact ⟨[], rfl, rfl, fun i => by cases i <;> rfl⟩
  | cons j rest ih =>
    have hj : (npGet xs j).isSome := h j (List.mem_cons_self _ _)
    obtain ⟨v, hv⟩ := Option.isSome_iff_exists.mp hj
    obtain ⟨r, hr, hlen, hget⟩ := ih (fun x hx => h x (List.mem_cons_of_mem _ hx))
    refine ⟨v :: r, ?_, by simp [hlen], ?_⟩
    · unfold npFancyIndex
      rw [hv, hr]
    · intro i
      cases i with
      | zero => simp [hv]
      | succ n => simpa using hget n

/-- The NumPy gather `s[p]` on a length-54 state with a length-54 in-range
permutation vector: it succeeds, keeps the length, and reads position `i`
from position `p[i]`. -/
theorem gather_spec {s : List String} {p : List Int} (hs : s.length = 54)
    (hp : p.length = 54) (hr : ∀ x ∈ p, 0 ≤ x ∧ x < 54) :
    ∃ r, npFancyIndex s p = some r ∧ r.length = 54 ∧
      ∀ i : Nat, i < 54 → ∀ j, p.get? i = some j → r.get? i = s.get? j.toNat := by
  have hsome : ∀ x ∈ p, (npGet s x).isSome := by
    intro x hx
    obtain ⟨h0, h1⟩ := hr x hx
    exact npGet_isSome_of_range h0 (by rw [hs]; exact_mod_cast h1)
  obtain ⟨r, hfancy, hlen, hget⟩ := npFancyIndex_eq_some hsome
  refine ⟨r, hfancy, by rw [hlen, hp], ?_⟩
  intro i hi j hj
  have hjmem : j ∈ p := List.get?_mem hj
  obtain ⟨h0, h1⟩ := hr j hjmem
  rw [hget i, hj]
  simp [npGet_of_nonneg h0 (by rw [hs]; exact_mod_cast h1)]

/-- `List.lookup` only returns values stored in the association list. -/
theorem lookup_mem : ∀ {perms : List (String × List Int)} {mv : String}
    {p : List Int}, perms.lookup mv = some p → (mv, p) ∈ perms := by
  intro perms
  induction perms with
  | nil => intro mv p h; simp [List.lookup] at h
  | cons hd tl ih =>
    intro mv p h
    obtain ⟨k, v⟩ := hd
    rw [List.lookup] at h
    split at h
    · next heq =>
      injection h with hvp
      have hk : mv = k := by simpa using heq
      rw [hk, hvp]
      exact List.mem_cons_self _ _
    · next heq => exact List.mem_cons_of_mem _ (ih h)

/-! ### C1: the Permutation Applier -/

/-- C1: for a state `s` of length 54 and a move `mv` whose catalog entry is a
permutation vector `p` of length 54 with all entries in `[0, 54)`,
`apply_move` succeeds with a state `r` of length 54 satisfying
`r[i] = s[p[i]]` for every `i < 54`.  (The embedding is purely functional:
`cube[perm]` gathers into a fresh array, so `s` is not mutated.) -/
theorem apply_move_applies_permutation (s : List String) (p : List Int)
    (mv : String) (perms : List (String × List Int))
    (hs : s.length = 54) (hp : p.length = 54)
    (hl : perms.lookup mv = some p)
    (hr : ∀ x ∈ p, 0 ≤ x ∧ x < 54) :
    ∃ r, apply_move s mv perms = .ok r ∧ r.length = 54 ∧
      ∀ i : Nat, i < 54 → ∀ j, p.get? i = some j → r.get? i = s.get? j.toNat := by
  obtain ⟨r, hfancy, hlen, htr⟩ := gather_spec hs hp hr
  exact ⟨r, by simp [apply_move, hl, hfancy], hlen, htr⟩

/-- Witness for C1 at a concrete state and catalog. -/
theorem apply_move_applies_permutation_witness :
    ∃ r, apply_move (List.replicate 54 "w") "R" [("R", arange54)] = .ok r ∧
      r.length = 54 ∧
      ∀ i : Nat, i < 54 → ∀ j, arange54.get? i = some j →
        r.get? i = (List.replicate 54 "w").get? j.toNat :=
  apply_move_applies_permutation _ _ _ _ (by simp) (by decide) rfl (by decide)

/-! ### C5: unknown moves are no-ops -/

/-- C5: a move name with no entry in the Move Catalog leaves the state
unchanged (no error is raised). -/
theorem apply_move_unknown_is_noop (cube : List String) (mv : String)
    (perms : List (String × List Int)) (h : perms.lookup mv = none) :
    apply_move cube mv perms = .ok cube := by
  unfold apply_move
  rw [h]

/-- Witness for C5: the unknown move name `"Z"` on a concrete state. -/
theorem apply_move_unknown_is_noop_witness :
    apply_move ["a", "b"] "Z" [] = .ok ["a", "b"] :=
  apply_move_unknown_is_noop ["a", "b"] "Z" [] rfl

/-! ### C4: the Sequence Runner is a left fold -/

/-- C4: `apply_moves` is the (monadic, error-propagating) left fold of
`apply_move` over the move list, threading each output state into the next
application. -/
theorem apply_moves_eq_foldlM (cube : List String) (moves : List String)
    (perms : List (String × List Int)) :
    apply_moves cube moves perms =
      List.foldlM (fun c m => apply_move c m perms) cube moves := by
  induction moves generalizing cube with
  | nil => rfl
  | cons m rest ih =>
    rw [apply_moves, List.foldlM_cons]
    cases h : apply_move cube m perms with
    | error e => rfl
    | ok c => exact ih c

/-! ### C9: the empty sequence is the identity -/

/-- C9: applying an empty Move Sequence returns the state unchanged. -/
theorem apply_moves_nil_id (cube : List String)
    (perms : List (String × List Int)) :
    apply_moves cube [] perms = .ok cube := rfl

/-! ### C7: the length-54 invariant -/

/-- A Move Catalog whose permutation vectors all have length 54 with entries
in `[0, 54)` — the shape `precompute_permutations` produces for well-formed
move descriptions. -/
def validCatalog (perms : List (String × List Int)) : Prop :=
  ∀ pr ∈ perms, (pr.2).length = 54 ∧ ∀ x ∈ pr.2, 0 ≤ x ∧ x < 54

instance (perms : List (String × List Int)) : Decidable (validCatalog perms) := by
  unfold validCatalog
  infer_instance

/-- Every single application on a valid catalog keeps length 54. -/
theorem apply_move_ok_length {perms : List (String × List Int)}
    (hperms : validCatalog perms) (s : List String) (mv : String)
    (hs : s.length = 54) :
    ∃ r, apply_move s mv perms = .ok r ∧ r.length = 54 := by
  cases hl : perms.lookup mv with
  | none => exact ⟨s, by simp [apply_move, hl], hs⟩
  | some p =>
    obtain ⟨hp, hr⟩ := hperms (mv, p) (lookup_mem hl)
    obtain ⟨r, hfancy, hlen, _⟩ := gather_spec hs hp hr
    exact ⟨r, by simp [apply_move, hl, hfancy], hlen⟩

/-- Whole sequences on a valid catalog keep length 54. -/
theorem apply_moves_ok_length {perms : List (String × List Int)}
    (hperms : validCatalog perms) :
    ∀ (moves : List String) (s : List String), s.length = 54 →
      ∃ r, apply_moves s moves perms = .ok r ∧ r.length = 54 := by
  intro moves
  induction moves with
  | nil => exact fun s hs => ⟨s, rfl, hs⟩
  | cons m rest ih =>
    intro s hs
    obtain ⟨c, hc, hclen⟩ := apply_move_ok_length hperms s m hs
    obtain ⟨r, hr, hrlen⟩ := ih c hclen
    refine ⟨r, ?_, hrlen⟩
    rw [apply_moves, hc]
    exact hr

/-- C7: on a valid catalog, the state length 54 is an invariant.  A single
application yields a length-54 state whose position `i` is read from exactly
the one input position `p[i]`, and every sequence of applications keeps the
evolving state at length 54. -/
theorem state_length_54_invariant (perms : List (String × List Int))
    (hperms : validCatalog perms) :
    (∀ (s : List String) (mv : String) (p : List Int), s.length = 54 →
        perms.lookup mv = some p →
        ∃ r, apply_move s mv perms = .ok r ∧ r.length = 54 ∧
          ∀ i : Nat, i < 54 → ∀ j, p.get? i = some j →
            r.get? i = s.get? j.toNat)
    ∧ (∀ (s : List String) (moves : List String), s.length = 54 →
        ∃ r, apply_moves s moves perms = .ok r ∧ r.length = 54) := by
  constructor
  · intro s mv p hs hl
    obtain ⟨hp, hr⟩ := hperms (mv, p) (lookup_mem hl)
    obtain ⟨r, hfancy, hlen, htr⟩ := gather_spec hs hp hr
    exact ⟨r, by simp [apply_move, hl, hfancy], hlen, htr⟩
  · intro s moves hs
    exact apply_moves_ok_length hperms moves s hs

/-- Witness for C7 on a concrete catalog, state and move sequence. -/
theorem state_length_54_invariant_witness :
    ∃ r, apply_moves (List.replicate 54 "w") ["R", "Z", "R"]
        [("R", arange54)] = .ok r ∧ r.length = 54 :=
  (state_length_54_invariant [("R", arange54)] (by decide)).2
    (List.replicate 54 "w") ["R", "Z", "R"] (by simp)

/-! ### C8: loading the initial state -/

/-- C8: `load_cube` fails with `ValueError` when there are fewer than two
rows or the second row does not have exactly 54 fields, and otherwise
returns the second row as the initial state. -/
theorem load_cube_spec (rows : List (List String)) :
    (rows.length < 2 → load_cube rows = .error .valueError)
    ∧ (∀ r0 r1 rest, rows = r0 :: r1 :: rest →
        (r1.length = 54 → load_cube rows = .ok r1)
        ∧ (r1.length ≠ 54 → load_cube rows = .error .valueError)) := by
  constructor
  · intro hlt
    match rows, hlt with
    | [], _ => rfl
    | [_], _ => rfl
  · intro r0 r1 rest hrows
    subst hrows
    constructor
    · intro h54
      simp [load_cube, h54]
    · intro h54
      simp [load_cube, h54]

/-- Witness for C8: a header row plus a 54-field data row loads as the data
row. -/
theorem load_cube_spec_witness :
    load_cube [[], List.replicate 54 "w"] = .ok (List.replicate 54 "w") :=
  ((load_cube_spec [[], List.replicate 54 "w"]).2 [] (List.replicate 54 "w")
    [] rfl).1 (by simp)

/-! ### C10: two moves compose as permutation composition -/

/-- C10: applying catalog moves `a` then `b` reads position `i` of the
result from position `pa[pb[i]]` of the input: the Sequence Runner realizes
composition of the stored permutation vectors. -/
theorem apply_moves_pair_composes (s : List String) (pa pb : List Int)
    (a b : String) (perms : List (String × List Int))
    (hs : s.length = 54) (hpa : pa.length = 54) (hpb : pb.length = 54)
    (hla : perms.lookup a = some pa) (hlb : perms.lookup b = some pb)
    (hra : ∀ x ∈ pa, 0 ≤ x ∧ x < 54) (hrb : ∀ x ∈ pb, 0 ≤ x ∧ x < 54) :
    ∃ r, apply_moves s [a, b] perms = .ok r ∧ r.length = 54 ∧
      ∀ i : Nat, i < 54 → ∀ j k, pb.get? i = some j → pa.get? j.toNat = some k →
        r.get? i = s.get? k.toNat := by
  obtain ⟨r1, hf1, hlen1, htr1⟩ := gather_spec hs hpa hra
  obtain ⟨r2, hf2, hlen2, htr2⟩ := gather_spec hlen1 hpb hrb
  refine ⟨r2, ?_, hlen2, ?_⟩
  · have h1 : apply_move s a perms = .ok r1 := by simp [apply_move, hla, hf1]
    have h2 : apply_move r1 b perms = .ok r2 := by simp [apply_move, hlb, hf2]
    simp [apply_moves, h1, h2]
  · intro i hi j k hj hk
    have hjmem : j ∈ pb := List.get?_mem hj
    obtain ⟨hj0, hj1⟩ := hrb j hjmem
    have hjlt : j.toNat < 54 := by omega
    rw [htr2 i hi j hj]
    exact htr1 j.toNat hjlt k hk

/-- Witness for C10 on a concrete two-move catalog. -/
theorem apply_moves_pair_composes_witness :
    ∃ r, apply_moves (List.replicate 54 "w") ["A", "B"]
        [("A", arange54), ("B", arange54)] = .ok r ∧ r.length = 54 ∧
      ∀ i : Nat, i < 54 → ∀ j k, arange54.get? i = some j →
        arange54.get? j.toNat = some k →
        r.get? i = (List.replicate 54 "w").get? k.toNat :=
  apply_moves_pair_composes _ _ _ _ _ _ (by simp) (by decide) (by decide)
    (by decide) (by decide) (by decide) (by decide)

/-! ### C2: what the catalog builder writes into the permutation vector -/

/-- The 0-indexed target position a mapping pair writes to: the pair's
VALUE, converted by `int(...)`, minus 1 (0 when the value does not parse;
only used under a well-formedness hypothesis). -/
def pairTgtIdx (e : PyStr × PyStr) : Int := (pyInt e.2).getD 0 - 1

/-- The 0-indexed source position a mapping pair stores: the pair's KEY,
converted by `int(...)`, minus 1 (0 when the key does not parse; only used
under a well-formedness hypothesis). -/
def pairSrcIdx (e : PyStr × PyStr) : Int := (pyInt e.1).getD 0 - 1

/-- A mapping pair both of whose strings parse, whose target index lands in
`[0, 54)`, and whose stored source index fits the int64 dtype of the
permutation array. -/
def entryWF (e : PyStr × PyStr) : Prop :=
  (pyInt e.1).isSome ∧ (pyInt e.2).isSome ∧ 0 ≤ pairTgtIdx e ∧ pairTgtIdx e < 54 ∧
    -(2 ^ 63) ≤ pairSrcIdx e ∧ pairSrcIdx e < 2 ^ 63

instance (e : PyStr × PyStr) : Decidable (entryWF e) := by
  unfold entryWF
  infer_instance

/-- The entry a successful builder result holds at position `i`, projected
out of the `Except`. -/
def exListGet (x : Except PyErr (List Int)) (i : Nat) : Option Int :=
  match x with
  | .ok l => l.get? i
  | .error _ => none

/-- The catalog builder's inner loop as claim C2 words it: the sub-mapping's
KEYS are read as target positions and its VALUES as source positions, so a
pair sets `perm[key-1] = value-1`.  Written from the claim's words, to be
compared with the code's `applyMappingPair`. -/
def claimC2pair (perm : List Int) (e : PyStr × PyStr) : Except PyErr (List Int) :=
  match pyInt e.1 with
  | none => .error .valueError
  | some t =>
    match pyInt e.2 with
    | none => .error .valueError
    | some s =>
      match npSet perm (t - 1) (s - 1) with
      | .error err => .error err
      | .ok p => .ok p

/-- Folding `claimC2pair`, from a given start vector. -/
def claimC2buildFrom (perm : List Int) (m : List (PyStr × PyStr)) :
    Except PyErr (List Int) :=
  match m with
  | [] => .ok perm
  | e :: rest =>
    match claimC2pair perm e with
    | .error err => .error err
    | .ok p => claimC2buildFrom p rest

/-- The per-move builder as claim C2 words it: identity start, then
`perm[key-1] = value-1` for each pair. -/
def claimC2build (m : List (PyStr × PyStr)) : Except PyErr (List Int) :=
  claimC2buildFrom arange54 m

theorem arange54_length : arange54.length = 54 := by
  rw [arange54, List.length_map, List.length_range]

theorem arange54_get (i : Nat) (h : i < 54) : arange54.get? i = some (i : Int) := by
  rw [arange54, List.get?_map, List.get?_range h]
  rfl

theorem npSet_ok_of_range {xs : List Int} {i v : Int} (h0 : 0 ≤ i)
    (h1 : i < (xs.length : Int)) (hv : -(2 ^ 63) ≤ v ∧ v < 2 ^ 63) :
    npSet xs i v = .ok (xs.set i.toNat v) := by
  unfold npSet
  rw [if_pos ⟨h0, h1⟩, if_pos hv]

theorem npSet_indexError_of_out {xs : List Int} {i v : Int}
    (h : ¬(-(xs.length : Int) ≤ i ∧ i < (xs.length : Int))) :
    npSet xs i v = .error .indexError := by
  unfold npSet
  have h1 : ¬(0 ≤ i ∧ i < (xs.length : Int)) := by omega
  have h2 : ¬(-(xs.length : Int) ≤ i ∧ i < 0) := by omega
  rw [if_neg h1, if_neg h2]

theorem npSet_overflow_of_big {xs : List Int} {i v : Int}
    (hidx : -(xs.length : Int) ≤ i ∧ i < (xs.length : Int))
    (hv : ¬(-(2 ^ 63) ≤ v ∧ v < 2 ^ 63)) :
    npSet xs i v = .error .overflowError := by
  unfold npSet
  by_cases h1 : 0 ≤ i ∧ i < (xs.length : Int)
  · rw [if_pos h1, if_neg hv]
  · rw [if_neg h1, if_pos (by omega), if_neg hv]

theorem npSet_ok_exists {xs : List Int} {i v : Int}
    (hidx : -(xs.length : Int) ≤ i ∧ i < (xs.length : Int))
    (hv : -(2 ^ 63) ≤ v ∧ v < 2 ^ 63) :
    ∃ ys, npSet xs i v = .ok ys ∧ ys.length = xs.length := by
  unfold npSet
  by_cases h1 : 0 ≤ i ∧ i < (xs.length : Int)
  · rw [if_pos h1, if_pos hv]
    exact ⟨_, rfl, by simp⟩
  · rw [if_neg h1, if_pos (by omega), if_pos hv]
    exact ⟨_, rfl, by simp⟩

/-- On a length-54 vector, a well-formed pair performs exactly the update
`perm[value-1] := key-1`. -/
theorem applyMappingPair_wf {perm : List Int} {e : PyStr × PyStr}
    (hlen : perm.length = 54) (hwf : entryWF e) :
    applyMappingPair perm e =
      .ok (perm.set (pairTgtIdx e).toNat (pairSrcIdx e)) := by
  obtain ⟨hs, ht, h0, h1, hv0, hv1⟩ := hwf
  obtain ⟨sv, hsv⟩ := Option.isSome_iff_exists.mp hs
  obtain ⟨tv, htv⟩ := Option.isSome_iff_exists.mp ht
  have htgt : pairTgtIdx e = tv - 1 := by simp [pairTgtIdx, htv]
  have hsrc : pairSrcIdx e = sv - 1 := by simp [pairSrcIdx, hsv]
  rw [htgt] at h0 h1
  rw [hsrc] at hv0 hv1
  simp only [applyMappingPair, htv, hsv]
  rw [npSet_ok_of_range h0 (by rw [hlen]; exact_mod_cast h1) ⟨hv0, hv1⟩]
  rw [htgt, hsrc]

/-- Main induction for C2: from any length-54 start vector, a well-formed
sub-mapping with pairwise distinct targets succeeds, writes `key-1` at
position `value-1` for each of its pairs, and leaves every other position
as in the start vector. -/
theorem buildMovePermFrom_spec :
    ∀ (m : List (PyStr × PyStr)) (perm : List Int), perm.length = 54 →
    (∀ e ∈ m, entryWF e) → (m.map pairTgtIdx).Nodup →
    ∃ p, buildMovePermFrom perm m = .ok p ∧ p.length = 54 ∧
      (∀ e ∈ m, p.get? (pairTgtIdx e).toNat = some (pairSrcIdx e)) ∧
      (∀ i : Nat, i < 54 → (∀ e ∈ m, (pairTgtIdx e).toNat ≠ i) →
        p.get? i = perm.get? i) := by
  intro m
  induction m with
  | nil =>
    intro perm hlen _ _
    exact ⟨perm, rfl, hlen, by simp, fun i _ _ => rfl⟩
  | cons e rest ih =>
    intro perm hlen hwf hnd
    have hwfe := hwf e (List.mem_cons_self _ _)
    have happ := applyMappingPair_wf hlen hwfe
    have hlen' : (perm.set (pairTgtIdx e).toNat (pairSrcIdx e)).length = 54 := by
      simp [hlen]
    rw [List.map_cons, List.nodup_cons] at hnd
    obtain ⟨hnotin, hndrest⟩ := hnd
    obtain ⟨p, hbuild, hplen, hrestpts, huntouched⟩ :=
      ih (perm.set (pairTgtIdx e).toNat (pairSrcIdx e)) hlen'
        (fun e' he' => hwf e' (List.mem_cons_of_mem _ he')) hndrest
    refine ⟨p, ?_, hplen, ?_, ?_⟩
    · simp [buildMovePermFrom, happ, hbuild]
    · intro e' he'
      rcases List.mem_cons.mp he' with rfl | he'
      · have htlt : (pairTgtIdx e').toNat < 54 := by
          obtain ⟨_, _, h0, h1, _, _⟩ := hwfe
          omega
        have hne : ∀ e'' ∈ rest, (pairTgtIdx e'').toNat ≠ (pairTgtIdx e').toNat := by
          intro e'' he'' hcontra
          obtain ⟨_, _, h0'', _, _, _⟩ := hwf e'' (List.mem_cons_of_mem _ he'')
          obtain ⟨_, _, h0, _, _, _⟩ := hwfe
          apply hnotin
          have heqt : pairTgtIdx e'' = pairTgtIdx e' := by omega
          rw [← heqt]
          exact List.mem_map_of_mem _ he''
        rw [huntouched (pairTgtIdx e').toNat htlt hne]
        exact List.get?_set_eq_of_lt _ (by rw [hlen]; exact htlt)
      · exact hrestpts e' he'
    · intro i hi hne
      rw [huntouched i hi (fun e'' he'' => hne e'' (List.mem_cons_of_mem _ he''))]
      exact List.get?_set_ne _ _ (hne e (List.mem_cons_self _ _))

/-- C2 counterexample: on the sub-mapping with the single pair key `"1"`,
value `"3"`, the code writes `perm[2] = 0` (keys are sources), while the
claim's reading (keys are targets) would write `perm[0] = 2`: position 0 of
the built vector holds 0, not the 2 the claim requires. -/
theorem buildMovePerm_c2_counterexample :
    buildMovePerm [(PyStr.num 1, PyStr.num 3)] ≠
        claimC2build [(PyStr.num 1, PyStr.num 3)] ∧
      exListGet (buildMovePerm [(PyStr.num 1, PyStr.num 3)]) 0 = some 0 ∧
      exListGet (claimC2build [(PyStr.num 1, PyStr.num 3)]) 0 = some 2 := by
  refine ⟨?_, by decide, by decide⟩
  intro h
  have h1 : exListGet (buildMovePerm [(PyStr.num 1, PyStr.num 3)]) 0 = some 0 := by
    decide
  have h2 : exListGet (claimC2build [(PyStr.num 1, PyStr.num 3)]) 0 = some 2 := by
    decide
  rw [h] at h1
  rw [h1] at h2
  exact absurd h2 (by decide)

/-- C2 (amended): the sub-mapping's keys are SOURCE positions and its values
are TARGET positions; the builder starts from the identity and, for each
(key, value) pair (with distinct in-range targets and stored source indices
that fit the array's int64 dtype), sets `perm[value-1] = key-1`, leaving
every unmentioned position as identity. -/
theorem buildMovePerm_amended (m : List (PyStr × PyStr))
    (hwf : ∀ e ∈ m, entryWF e) (hnd : (m.map pairTgtIdx).Nodup) :
    ∃ p, buildMovePerm m = .ok p ∧ p.length = 54 ∧
      (∀ e ∈ m, p.get? (pairTgtIdx e).toNat = some (pairSrcIdx e)) ∧
      (∀ i : Nat, i < 54 → (∀ e ∈ m, (pairTgtIdx e).toNat ≠ i) →
        p.get? i = some (i : Int)) := by
  obtain ⟨p, h1, h2, h3, h4⟩ :=
    buildMovePermFrom_spec m arange54 arange54_length hwf hnd
  refine ⟨p, h1, h2, h3, fun i hi hne => ?_⟩
  rw [h4 i hi hne]
  exact arange54_get i hi

/-- Witness for the amended C2 on the concrete one-pair sub-mapping. -/
theorem buildMovePerm_amended_witness :
    ∃ p, buildMovePerm [(PyStr.num 1, PyStr.num 3)] = .ok p ∧ p.length = 54 ∧
      (∀ e ∈ [(PyStr.num 1, PyStr.num 3)],
        p.get? (pairTgtIdx e).toNat = some (pairSrcIdx e)) ∧
      (∀ i : Nat, i < 54 →
        (∀ e ∈ [(PyStr.num 1, PyStr.num 3)], (pairTgtIdx e).toNat ≠ i) →
        p.get? i = some (i : Int)) :=
  buildMovePerm_amended _ (by decide) (by decide)

/-! ### C3: when the catalog builder fails -/

/-- The condition under which the code accepts a mapping pair: both strings
parse with `int(...)`, the TARGET index (value minus 1) lies in the NumPy
index window `[-54, 54)`, and the stored SOURCE index (key minus 1) fits the
int64 dtype `[-2^63, 2^63)`.  No `[0, 54)` range check on the source is ever
performed. -/
def mappingPairOk (e : PyStr × PyStr) : Bool :=
  match pyInt e.2 with
  | none => false
  | some t =>
    match pyInt e.1 with
    | none => false
    | some s =>
      decide (-54 ≤ t - 1) && decide (t - 1 < 54) &&
        decide (-(2 ^ 63) ≤ s - 1) && decide (s - 1 < 2 ^ 63)

/-- The per-move loop succeeds from a length-54 start vector exactly when
every pair of the sub-mapping is accepted. -/
theorem buildMovePermFrom_ok_iff :
    ∀ (m : List (PyStr × PyStr)) (perm : List Int), perm.length = 54 →
    exOk (buildMovePermFrom perm m) = m.all mappingPairOk := by
  intro m
  induction m with
  | nil => intro perm _; rfl
  | cons e rest ih =>
    intro perm hlen
    rw [List.all_cons]
    cases ht : pyInt e.2 with
    | none =>
      have h1 : applyMappingPair perm e = .error .valueError := by
        simp [applyMappingPair, ht]
      have h2 : mappingPairOk e = false := by
        simp [mappingPairOk, ht]
      simp [buildMovePermFrom, h1, h2, exOk]
    | some tv =>
      cases hsrc : pyInt e.1 with
      | none =>
        have h1 : applyMappingPair perm e = .error .valueError := by
          simp [applyMappingPair, ht, hsrc]
        have h2 : mappingPairOk e = false := by
          simp [mappingPairOk, ht, hsrc]
        simp [buildMovePermFrom, h1, h2, exOk]
      | some sv =>
        by_cases hrange : -(54 : Int) ≤ tv - 1 ∧ tv - 1 < 54
        · have hin : -((perm.length : Int)) ≤ tv - 1 ∧
              tv - 1 < (perm.length : Int) := by
            rw [hlen]
            exact_mod_cast hrange
          by_cases hval : -(2 ^ 63 : Int) ≤ sv - 1 ∧ sv - 1 < 2 ^ 63
          · obtain ⟨perm', hnp, hplen⟩ := npSet_ok_exists hin hval
            have hlen' : perm'.length = 54 := by rw [hplen, hlen]
            have h1 : applyMappingPair perm e = .ok perm' := by
              simp [applyMappingPair, ht, hsrc, hnp]
            have h2 : mappingPairOk e = true := by
              simp [mappingPairOk, ht, hsrc, hrange.1, hrange.2] <;> omega
            simp [buildMovePermFrom, h1, h2, ih perm' hlen']
          · have hnp := npSet_overflow_of_big (v := sv - 1) hin hval
            have h1 : applyMappingPair perm e = .error .overflowError := by
              simp [applyMappingPair, ht, hsrc, hnp]
            have h2 : mappingPairOk e = false := by
              simp [mappingPairOk, ht, hsrc]
              omega
            simp [buildMovePermFrom, h1, h2, exOk]
        · have hout : ¬(-((perm.length : Int)) ≤ tv - 1 ∧
              tv - 1 < (perm.length : Int)) := by
            rw [hlen]
            intro hc
            exact hrange (by exact_mod_cast hc)
          have hnp : npSet perm (tv - 1) (sv - 1) = .error .indexError :=
            npSet_indexError_of_out hout
          have h1 : applyMappingPair perm e = .error .indexError := by
            simp [applyMappingPair, ht, hsrc, hnp]
          have h2 : mappingPairOk e = false := by
            simp [mappingPairOk, ht, hsrc]
            omega
          simp [buildMovePermFrom, h1, h2, exOk]

theorem buildMovePerm_ok_iff (m : List (PyStr × PyStr)) :
    exOk (buildMovePerm m) = m.all mappingPairOk :=
  buildMovePermFrom_ok_iff m arange54 arange54_length

/-- C3 (amended): the Move Catalog Builder succeeds exactly when every pair
of every move parses as integers (`ValueError` otherwise), has its target
index, after 0-indexed conversion, inside NumPy's accepted window `[-54, 54)`
(`IndexError` otherwise), and has its stored source index inside the int64
dtype range `[-2^63, 2^63)` (`OverflowError` otherwise).  In particular a
source position outside `[0, 54)` but representable in int64 is accepted
unchecked, and target indices in `[-54, 0)` wrap around instead of failing,
so failure is not "some position outside `[0, 54)`" as the claim stated. -/
theorem precompute_permutations_ok_iff
    (mappings : List (String × List (PyStr × PyStr))) :
    exOk (precompute_permutations mappings) =
      mappings.all (fun pr => pr.2.all mappingPairOk) := by
  suffices h : ∀ (ms : List (String × List (PyStr × PyStr)))
      (acc : List (String × List Int)),
      exOk (precomputeFrom acc ms) = ms.all (fun pr => pr.2.all mappingPairOk) by
    exact h mappings []
  intro ms
  induction ms with
  | nil => intro acc; rfl
  | cons pr rest ih =>
    intro acc
    obtain ⟨mv, m⟩ := pr
    rw [List.all_cons]
    cases hb : buildMovePerm m with
    | error e =>
      have hfalse : m.all mappingPairOk = false := by
        rw [← buildMovePerm_ok_iff m, hb]
        rfl
      simp [precomputeFrom, hb, hfalse, exOk]
    | ok perm =>
      have htrue : m.all mappingPairOk = true := by
        rw [← buildMovePerm_ok_iff m, hb]
        rfl
      simp [precomputeFrom, hb, htrue, ih]

/-- C3 counterexample: the move description mapping key `"60"` to value
`"3"` contains the position 60, whose 0-indexed conversion 59 falls outside
`[0, 54)`, yet the builder does not fail: it returns a catalog whose vector
stores 59 at position 2. -/
theorem precompute_c3_counterexample :
    ¬(0 ≤ (60 : Int) - 1 ∧ (60 : Int) - 1 < 54) ∧
      precompute_permutations [("X", [(PyStr.num 60, PyStr.num 3)])] =
        .ok [("X", arange54.set 2 59)] := by
  constructor
  · decide
  · rfl

/-! ### C6: the Benchmark Driver's parameter handling and loop structure -/

/-- One random sequence as §4.4 describes it: `M` move names drawn by the
oracle at the given run and iteration. -/
def benchDraw (rand : Int → Int → Int → String) (run it : Int) (M : Nat) :
    List String :=
  (List.range M).map (fun k => rand run it (Int.ofNat k))

/-- `n` iterations of one run: each iteration draws a sequence and applies
it to the threaded state. -/
def benchIters (perms : List (String × List Int))
    (rand : Int → Int → Int → String) (run : Int) (M : Nat) :
    Nat → List String → Except PyErr (List String)
  | 0, c => .ok c
  | n + 1, c =>
    match benchIters perms rand run M n c with
    | .error e => .error e
    | .ok c' => apply_moves c' (benchDraw rand run (Int.ofNat n) M) perms

/-- `n` runs of `I` iterations each, run indices counted 1, 2, ...; the
state threads across iterations and runs and is never reset. -/
def benchRuns (perms : List (String × List Int))
    (rand : Int → Int → Int → String) (M I : Nat) :
    Nat → List String → Except PyErr (List String)
  | 0, c => .ok c
  | n + 1, c =>
    match benchRuns perms rand M I n c with
    | .error e => .error e
    | .ok c' => benchIters perms rand (Int.ofNat n + 1) M I c'

theorem exBindOk {α β : Type} (c : α) (g : α → Except PyErr β) :
    (Except.ok c >>= g) = g c := rfl

theorem pyRange_zero (n : Int) :
    pyRange 0 n = (List.range n.toNat).map Int.ofNat := by
  unfold pyRange
  simp

theorem pyRange_one_succ (r : Int) :
    pyRange 1 (r + 1) = (List.range r.toNat).map (fun k => Int.ofNat k + 1) := by
  unfold pyRange
  have h : (r + 1 - 1).toNat = r.toNat := by omega
  rw [h]
  apply List.map_congr_left
  intro a _
  omega

theorem drawEq (rand : Int → Int → Int → String) (run it : Int) (M : Int) :
    (pyRange 0 M).map (fun k => rand run it k) = benchDraw rand run it M.toNat := by
  rw [pyRange_zero, List.map_map]
  rfl

/-- The code's inner `for` loop equals the spec-level iteration count
`I.toNat`. -/
theorem foldIters (perms : List (String × List Int))
    (rand : Int → Int → Int → String) (run : Int) (M : Int) :
    ∀ (n : Nat) (c : List String),
      List.foldlM
        (fun c it => apply_moves c ((pyRange 0 M).map (fun k => rand run it k)) perms)
        c ((List.range n).map Int.ofNat)
      = benchIters perms rand run M.toNat n c := by
  intro n
  induction n with
  | zero => intro c; rfl
  | succ n ih =>
    intro c
    rw [List.range_succ, List.map_append, List.foldlM_append, ih]
    cases h : benchIters perms rand run M.toNat n c with
    | error e =>
      simp only [benchIters]
      rw [h]
      rfl
    | ok c' =>
      simp only [benchIters]
      rw [h, exBindOk]
      simp only [List.map_cons, List.map_nil, List.foldlM_cons, List.foldlM_nil,
        drawEq]
      exact bind_pure _

/-- The code's outer `for` loop equals the spec-level run count. -/
theorem foldRuns (perms : List (String × List Int))
    (rand : Int → Int → Int → String) (M I : Nat) :
    ∀ (n : Nat) (c : List String),
      List.foldlM
        (fun c run => benchIters perms rand run M I c)
        c ((List.range n).map (fun k => Int.ofNat k + 1))
      = benchRuns perms rand M I n c := by
  intro n
  induction n with
  | zero => intro c; rfl
  | succ n ih =>
    intro c
    rw [List.range_succ, List.map_append, List.foldlM_append, ih]
    cases h : benchRuns perms rand M I n c with
    | error e =>
      simp only [benchRuns]
      rw [h]
      rfl
    | ok c' =>
      simp only [benchRuns]
      rw [h, exBindOk]
      simp only [List.map_cons, List.map_nil, List.foldlM_cons, List.foldlM_nil]
      exact bind_pure _

/-- C6 (amended): the driver fails with `ValueError` when any of the three
interactive inputs cannot be parsed as an integer; negative values do NOT
fail.  On parsed inputs `M`, `I`, `R` it performs `max(R,0)` runs of
`max(I,0)` iterations each, each iteration drawing `max(M,0)` moves — so a
negative count simply behaves like zero. -/
theorem mainBench_spec (mIn iIn rIn : PyStr) (cube : List String)
    (perms : List (String × List Int)) (rand : Int → Int → Int → String) :
    ((pyInt mIn = none ∨ pyInt iIn = none ∨ pyInt rIn = none) →
      mainBench mIn iIn rIn cube perms rand = .error .valueError)
    ∧ (∀ M I R : Int, pyInt mIn = some M → pyInt iIn = some I →
        pyInt rIn = some R →
        mainBench mIn iIn rIn cube perms rand =
          benchRuns perms rand M.toNat I.toNat R.toNat cube) := by
  constructor
  · intro h
    rcases h with h | h | h
    · simp [mainBench, h]
    · cases hm : pyInt mIn with
      | none => simp [mainBench, hm]
      | some M => simp [mainBench, hm, h]
    · cases hm : pyInt mIn with
      | none => simp [mainBench, hm]
      | some M =>
        cases hi : pyInt iIn with
        | none => simp [mainBench, hm, hi]
        | some I => simp [mainBench, hm, hi, h]
  · intro M I R hM hI hR
    simp only [mainBench, hM, hI, hR]
    unfold mainLoops
    rw [pyRange_one_succ]
    have hfeq : (fun (c : List String) (run : Int) =>
        List.foldlM
          (fun c it => apply_moves c ((pyRange 0 M).map (fun k => rand run it k)) perms)
          c (pyRange 0 I))
        = fun (c : List String) (run : Int) =>
            benchIters perms rand run M.toNat I.toNat c := by
      funext c run
      rw [pyRange_zero I]
      exact foldIters perms rand run M I.toNat c
    rw [hfeq]
    exact foldRuns perms rand M.toNat I.toNat R.toNat cube

/-- C6 counterexample: all three inputs parse to the negative integer `-1`,
and the driver does not fail with any error — it performs zero runs and
returns the state unchanged. -/
theorem mainBench_c6_counterexample :
    (-1 : Int) < 0 ∧
      mainBench (PyStr.num (-1)) (PyStr.num (-1)) (PyStr.num (-1)) ["a"] []
        (fun _ _ _ => "Z") = .ok ["a"] := by
  constructor
  · decide
  · rfl

/-- Witness for the amended C6 at concrete parsed inputs. -/
theorem mainBench_spec_witness :
    mainBench (PyStr.num 2) (PyStr.num 1) (PyStr.num 1) ["a", "b"] []
      (fun _ _ _ => "Z") =
      benchRuns [] (fun _ _ _ => "Z") 2 1 1 ["a", "b"] :=
  (mainBench_spec (PyStr.num 2) (PyStr.num 1) (PyStr.num 1) ["a", "b"] []
    (fun _ _ _ => "Z")).2 2 1 1 rfl rfl rfl
